import Mathlib

/-!
Verification of the Minerva ingestion-to-retrieval pipeline core.

Python strings are modelled as `List Char` (a Python `str` is a sequence of
code points).  Python string operations used by the code under verification
(`split`, `strip`, `join`, `len`, substring test) are re-implemented below by
structural recursion so that every definition evaluates inside the kernel.
Python `float` percentages (e.g. the 0.15 chunk-overlap percentage) are
modelled as rational numbers given by a numerator/denominator pair of
naturals; `int(x)` on a non-negative value is floor, i.e. `Nat` division.
External collaborators (the tiktoken tokenizer, the OpenAI embedding
provider, the SHA-256 hash, the datasketch MinHash) are parameters of the
definitions that call them, since their outputs are opaque payloads to the
code under verification.
-/

/-- Sequence of code points of a Python string. -/
abbrev PyStr := List Char

/-- Python `sub in s` substring test helper: does `l` start with `pre`. -/
def startsWith : PyStr → PyStr → Bool
  | _, [] => true
  | [], _ :: _ => false
  | c :: cs, d :: ds => c = d && startsWith cs ds

/-- Python `sub in s` substring containment. -/
def containsSub : PyStr → PyStr → Bool
  | [], sub => startsWith [] sub
  | c :: cs, sub => startsWith (c :: cs) sub || containsSub cs sub

/-- Python `text.split("\n\n")`: split on each non-overlapping occurrence of
a blank line (two consecutive newlines), scanning left to right. -/
def splitOnBlank : PyStr → List PyStr
  | [] => [[]]
  | '\n' :: '\n' :: rest => [] :: splitOnBlank rest
  | c :: rest =>
    match splitOnBlank rest with
    | [] => [[c]]
    | g :: gs => (c :: g) :: gs

/-- Python `s.strip()`: remove leading and trailing whitespace. -/
def stripStr (l : PyStr) : PyStr :=
  ((l.dropWhile Char.isWhitespace).reverse.dropWhile Char.isWhitespace).reverse

/-- Helper for `wordsOf`, carrying the (reversed) current word. -/
def wordsAux : PyStr → PyStr → List PyStr
  | [], acc => if acc = [] then [] else [acc.reverse]
  | c :: cs, acc =>
    if c.isWhitespace then
      (if acc = [] then wordsAux cs [] else acc.reverse :: wordsAux cs [])
    else wordsAux cs (c :: acc)

/-- Python `s.split()` with no argument: whitespace-separated words, empty
strings discarded. -/
def wordsOf (l : PyStr) : List PyStr := wordsAux l []

/-- Python `sep.join(parts)`. -/
def joinSep (sep : PyStr) : List PyStr → PyStr
  | [] => []
  | [p] => p
  | p :: ps => p ++ sep ++ joinSep sep ps

/-- The paragraph separator `"\n\n"`. -/
def blankSep : PyStr := ['\n', '\n']

/-! ## Deduplicator (`content_processor.py`)

`ContentProcessor.deduplicate_pages` drops pages whose SHA-256 text hash was
already seen; `ContentProcessor.deduplicate_chunks` drops chunks for which the
MinHash LSH index already holds a near-match at the configured Jaccard
threshold.  SHA-256 is modelled as a parameter `hash`; the datasketch MinHash
signature builder is a parameter `mh`; the `MinHashLSH` index is modelled from
the library's contract as a list of inserted `(key, signature)` pairs whose
`query` returns the keys of stored signatures that are near the queried one
(parameter `near`, the banded Jaccard-threshold test). -/

/-- One extracted web page (`ExtractedContent`): only the fields the
deduplicator reads. -/
structure ExtractedContent where
  url : PyStr
  text : PyStr
deriving DecidableEq, Repr

/-- Loop of `deduplicate_pages`: `seen` is the set of already-seen hashes. -/
def dedupPagesLoop (hash : PyStr → Nat) : List ExtractedContent → List Nat → List ExtractedContent
  | [], _ => []
  | p :: ps, seen =>
    let h := hash p.text
    if h ∈ seen then dedupPagesLoop hash ps seen
    else p :: dedupPagesLoop hash ps (h :: seen)

/-- `ContentProcessor.deduplicate_pages`: remove exact duplicate pages by
content hash, preserving first-seen order. -/
def deduplicate_pages (hash : PyStr → Nat) (pages : List ExtractedContent) : List ExtractedContent :=
  dedupPagesLoop hash pages []

/-- A chunk dictionary as consumed by `deduplicate_chunks`: `id` and `text`
keys may be absent (`chunk.get`). -/
structure WebChunk where
  id : Option PyStr
  text : Option PyStr
deriving DecidableEq, Repr

/-- The `MinHashLSH` index state: inserted `(key, signature)` pairs. -/
abbrev LSHIndex (M : Type) := List (PyStr × M)

/-- Modelled from the datasketch `MinHashLSH.query` contract: keys of the
stored signatures that are near the queried signature at the index's
threshold (`near` is the threshold test). -/
def lshQuery (near : M → M → Bool) (idx : LSHIndex M) (m : M) : List PyStr :=
  (idx.filter (fun p => near p.2 m)).map (fun p => p.1)

/-- Modelled from the datasketch `MinHashLSH.insert` contract. -/
def lshInsert (idx : LSHIndex M) (key : PyStr) (m : M) : LSHIndex M :=
  idx ++ [(key, m)]

/-- Loop body of `deduplicate_chunks`: `kept` counts chunks already kept
(Python uses `len(unique_chunks)` as the default chunk id). -/
def dedupChunksLoop (near : M → M → Bool) (mh : PyStr → M) :
    List WebChunk → LSHIndex M → Nat → List WebChunk
  | [], _, _ => []
  | c :: cs, idx, kept =>
    let chunkId := c.id.getD (Nat.repr kept).data
    let chunkText := c.text.getD []
    if chunkText = [] then dedupChunksLoop near mh cs idx kept
    else
      let m := mh chunkText
      let similar := lshQuery near idx m
      if similar = [] then
        c :: dedupChunksLoop near mh cs (lshInsert idx chunkId m) (kept + 1)
      else
        dedupChunksLoop near mh cs idx kept

/-- `ContentProcessor.deduplicate_chunks`: remove near-duplicate chunks with
a MinHash LSH index scoped to this call. -/
def deduplicate_chunks (near : M → M → Bool) (mh : PyStr → M) (chunks : List WebChunk) : List WebChunk :=
  if chunks = [] then chunks
  else dedupChunksLoop near mh chunks [] 0

/-! ## SemanticChunker (`semantic_chunking.py`)

`SemanticChunker.chunk_extracted_text` splits text on blank-line paragraph
boundaries, greedily packs paragraphs under a token budget, and on overflow
closes the chunk and seeds the next one with an overlap computed from the
closed chunk.  The tiktoken `count_tokens` function is external and is a
parameter `tok`; the float `chunk_overlap_percentage` is the rational
`pctNum / pctDen`; `overlap_tokens = int(chunk_size_tokens *
chunk_overlap_percentage)` is `chunkSize * pctNum / pctDen` in `Nat`
division. -/

/-- Metadata for a single text chunk (`ChunkMetadata`).  Python builds
`screenshot_ids` as `list(set(...))` in unspecified order, so the field is a
`Finset`. -/
structure ChunkMetadata where
  chunk_text : PyStr
  chunk_sequence : Nat
  screenshot_ids : Finset Nat
  start_position : Nat
  end_position : Nat
  token_count : Nat
deriving DecidableEq

/-- Insert into the accumulated id set the screenshot mapped at `pos`
(`screenshot_ids.add(screenshot_mapping[pos])`; `pos` is always a key). -/
def addMappedId (mapping : List (Nat × Nat)) (acc : Finset Nat) (pos : Nat) : Finset Nat :=
  match mapping.lookup pos with
  | some v => insert v acc
  | none => acc

/-- Loop of `_get_screenshot_ids_for_range` over the sorted key list.  The
Python body looks up `sorted_positions.index(pos) + 1`; since dict keys are
distinct, that is the head of the remaining list. -/
def screenshotLoop (mapping : List (Nat × Nat)) (startPos endPos : Nat) :
    List Nat → Finset Nat → Finset Nat
  | [], acc => acc
  | pos :: rest, acc =>
    if pos ≤ endPos then
      let acc1 := addMappedId mapping acc pos
      let acc2 :=
        if startPos ≤ pos then
          match rest with
          | [] => acc1
          | nextPos :: _ => if nextPos ≤ endPos then addMappedId mapping acc1 nextPos else acc1
        else acc1
      screenshotLoop mapping startPos endPos rest acc2
    else screenshotLoop mapping startPos endPos rest acc

/-- Stable insertion of a natural into an ascending list. -/
def insertNatAsc (x : Nat) : List Nat → List Nat
  | [] => [x]
  | y :: ys => if x ≤ y then x :: y :: ys else y :: insertNatAsc x ys

/-- Python `sorted(...)` on naturals (insertion sort). -/
def sortNat (l : List Nat) : List Nat := l.foldr insertNatAsc []

/-- `SemanticChunker._get_screenshot_ids_for_range`: the set of screenshot
ids recorded for the character range `[startPos, endPos]`. -/
def get_screenshot_ids_for_range (startPos endPos : Nat) (mapping : List (Nat × Nat)) : Finset Nat :=
  screenshotLoop mapping startPos endPos (sortNat (mapping.map Prod.fst)) ∅

/-- `SemanticChunker._calculate_overlap_text`: the overlap seed taken from a
closed chunk. -/
def calculate_overlap_text (tok : PyStr → Nat) (overlapTokens pctNum pctDen : Nat)
    (chunkText : PyStr) : PyStr :=
  if tok chunkText ≤ overlapTokens then chunkText
  else
    let ws := wordsOf chunkText
    let totalWords := ws.length
    let owc0 := totalWords * pctNum / pctDen
    let owc := if owc0 = 0 then 1 else owc0
    joinSep [' '] (ws.drop (totalWords - owc))

/-- Loop state of `_build_chunks_with_overlap`: finished chunks, paragraphs
of the chunk being accumulated, the next sequence number, and
`text_position`. -/
structure ChunkState where
  chunks : List ChunkMetadata
  current : List PyStr
  seq : Nat
  pos : Nat
deriving DecidableEq

/-- One iteration of the paragraph loop in `_build_chunks_with_overlap`. -/
def buildStep (tok : PyStr → Nat) (chunkSize overlapTokens pctNum pctDen : Nat)
    (mapping : List (Nat × Nat)) (st : ChunkState) (paragraph : PyStr) : ChunkState :=
  let potential :=
    if st.current ≠ [] then joinSep blankSep (st.current ++ [paragraph]) else paragraph
  let potentialTokens := tok potential
  if potentialTokens > chunkSize ∧ st.current ≠ [] then
    let chunkText := joinSep blankSep st.current
    let chunkStart := st.pos
    let chunkEnd := st.pos + chunkText.length
    let ids := get_screenshot_ids_for_range chunkStart chunkEnd mapping
    let meta : ChunkMetadata :=
      ⟨chunkText, st.seq, ids, chunkStart, chunkEnd, tok chunkText⟩
    let overlapText := calculate_overlap_text tok overlapTokens pctNum pctDen chunkText
    { chunks := st.chunks ++ [meta], current := [overlapText, paragraph],
      seq := st.seq + 1, pos := chunkEnd }
  else
    { st with current := st.current ++ [paragraph] }

/-- `SemanticChunker._build_chunks_with_overlap`: fold the paragraph loop,
then emit the final partial chunk. -/
def build_chunks_with_overlap (tok : PyStr → Nat) (chunkSize overlapTokens pctNum pctDen : Nat)
    (mapping : List (Nat × Nat)) (paragraphs : List PyStr) : List ChunkMetadata :=
  let st := paragraphs.foldl (buildStep tok chunkSize overlapTokens pctNum pctDen mapping)
    ⟨[], [], 1, 0⟩
  if st.current ≠ [] then
    let chunkText := joinSep blankSep st.current
    let chunkStart := if st.chunks ≠ [] then st.pos else 0
    let chunkEnd := chunkStart + chunkText.length
    let ids := get_screenshot_ids_for_range chunkStart chunkEnd mapping
    st.chunks ++ [⟨chunkText, st.seq, ids, chunkStart, chunkEnd, tok chunkText⟩]
  else st.chunks

/-- `SemanticChunker._split_into_paragraphs`: split on blank lines, strip,
drop empties. -/
def split_into_paragraphs (text : PyStr) : List PyStr :=
  ((splitOnBlank text).map stripStr).filter (fun p => p ≠ [])

/-- `SemanticChunker.chunk_extracted_text` (the chunking computation; the
logging and the `ChunkingError` re-wrap of internal failures carry no
behaviour in this pure model). -/
def chunk_extracted_text (tok : PyStr → Nat) (chunkSize pctNum pctDen : Nat)
    (text : PyStr) (mapping : List (Nat × Nat)) : List ChunkMetadata :=
  if text = [] ∨ stripStr text = [] then []
  else
    let overlapTokens := chunkSize * pctNum / pctDen
    build_chunks_with_overlap tok chunkSize overlapTokens pctNum pctDen mapping
      (split_into_paragraphs text)

/-! ## EmbeddingBatchEngine (`embedding_generator.py`)

`EmbeddingGenerator.generate_embeddings` splits texts into batches of
`batch_size` and calls `_generate_batch_embeddings` for each in order;
the per-batch retry loop distinguishes OpenAI `RateLimitError` (exponential
backoff, typed `OpenAIRateLimitError` on exhaustion) from `5xx` server errors
(fixed delay, `EmbeddingGenerationError` on exhaustion) from all other errors
(no retry).  The provider is a parameter mapping the running call count and
the batch texts to a response; embedding vectors are an opaque payload type
`V`.  Sleeping carries no behaviour in this model. -/

/-- A Python exception coming out of the provider call: OpenAI
`RateLimitError`, or any other exception with its `str(e)` message. -/
inductive PyExc where
  | rateLimitError (msg : PyStr)
  | otherExc (msg : PyStr)
deriving DecidableEq

/-- The Minerva exception types raised by the embedding engine
(`OpenAIRateLimitError` and `EmbeddingGenerationError` from
`minerva.utils.exceptions`; the former is NOT a subclass of the latter). -/
inductive EmbErr where
  | openAIRateLimit (msg : PyStr)
  | embeddingGeneration (msg : PyStr)
deriving DecidableEq

/-- Python `str(e)` of an engine exception. -/
def EmbErr.message : EmbErr → PyStr
  | .openAIRateLimit m => m
  | .embeddingGeneration m => m

/-- The `"500"/"502"/"503" in str(e)` server-error test of
`_generate_batch_embeddings`. -/
def isServerError (msg : PyStr) : Bool :=
  containsSub msg ("500".data) || containsSub msg ("502".data) || containsSub msg ("503".data)

/-- Retry loop of `_generate_batch_embeddings`.  `retriesLeft` counts down
from `maxRetries` (so `retriesLeft = 0` is the final attempt); `calls` is the
running provider call count.  Returns the outcome and the new call count. -/
def generateBatchLoop (provider : Nat → List PyStr → Except PyExc (List V))
    (texts : List PyStr) (maxRetries : Nat) :
    Nat → Nat → Except EmbErr (List V) × Nat
  | retriesLeft, calls =>
    match provider calls texts with
    | .ok embs => (.ok embs, calls + 1)
    | .error (.rateLimitError _) =>
      match retriesLeft with
      | 0 => (.error (.openAIRateLimit
          (("Rate limit exceeded after ".data) ++ (Nat.repr (maxRetries + 1)).data
            ++ (" attempts".data))), calls + 1)
      | r + 1 => generateBatchLoop provider texts maxRetries r (calls + 1)
    | .error (.otherExc m) =>
      if isServerError m then
        match retriesLeft with
        | 0 => (.error (.embeddingGeneration
            (("Server error after ".data) ++ (Nat.repr (maxRetries + 1)).data
              ++ (" attempts: ".data) ++ m)), calls + 1)
        | r + 1 => generateBatchLoop provider texts maxRetries r (calls + 1)
      else
        (.error (.embeddingGeneration (("Embedding generation error: ".data) ++ m)), calls + 1)

/-- `EmbeddingGenerator._generate_batch_embeddings` (default
`max_retries = 3`). -/
def generate_batch_embeddings (provider : Nat → List PyStr → Except PyExc (List V))
    (texts : List PyStr) (maxRetries calls : Nat) : Except EmbErr (List V) × Nat :=
  generateBatchLoop provider texts maxRetries maxRetries calls

/-- Batch loop of `generate_embeddings`: for each `batch_num`, embed
`texts[batch_num * batch_size : batch_num * batch_size + batch_size]` and
append the result before the next batch starts.  `remaining` is the number of
batches still to process. -/
def embedBatchesLoop (provider : Nat → List PyStr → Except PyExc (List V))
    (batchSize maxRetries : Nat) (texts : List PyStr) :
    Nat → Nat → Nat → List V → Except EmbErr (List V) × Nat
  | 0, _, calls, acc => (.ok acc, calls)
  | remaining + 1, batchNum, calls, acc =>
    let batchTexts := (texts.drop (batchNum * batchSize)).take batchSize
    match generate_batch_embeddings provider batchTexts maxRetries calls with
    | (.ok embs, calls2) =>
      embedBatchesLoop provider batchSize maxRetries texts remaining (batchNum + 1) calls2
        (acc ++ embs)
    | (.error e, calls2) => (.error e, calls2)

/-- `EmbeddingGenerator.generate_embeddings`: the public entry point.  Its
`except Exception` clause wraps ANY failure (including the typed
`OpenAIRateLimitError` from a batch) into `EmbeddingGenerationError`.
Returns the outcome and the number of provider calls made. -/
def generate_embeddings (provider : Nat → List PyStr → Except PyExc (List V))
    (batchSize maxRetries : Nat) (texts : List PyStr) : Except EmbErr (List V) × Nat :=
  if texts = [] then (.ok [], 0)
  else
    let totalBatches := (texts.length + batchSize - 1) / batchSize
    match embedBatchesLoop provider batchSize maxRetries texts totalBatches 0 0 [] with
    | (.ok embs, calls) => (.ok embs, calls)
    | (.error e, calls) =>
      (.error (.embeddingGeneration (("Failed to generate embeddings: ".data) ++ e.message)),
        calls)

/-! ## Pipeline embedding stage (`pipeline.py`, `_stage_embedding_generation`)

The stage extracts the chunk texts, calls `generate_embeddings`, and only
after the WHOLE call returns does it write the vectors onto the chunk rows,
flush, and commit.  On any exception it re-raises `EmbeddingGenerationError`
and nothing is committed, so the database keeps its pre-stage state (the
session rollback discards the uncommitted rows).  There is no per-batch
commit anywhere in the stage or in `generate_embeddings`. -/

/-- A persisted chunk row, as far as the embedding stage touches it. -/
structure ChunkRow (V : Type) where
  chunk_sequence : Nat
  chunk_text : PyStr
  embedding : Option V
deriving DecidableEq

/-- The `zip(chunks, embeddings, strict=False)` assignment loop: pair rows
with vectors up to the shorter list; unpaired rows keep their embedding. -/
def applyEmbeddings : List (ChunkRow V) → List V → List (ChunkRow V)
  | cs, [] => cs
  | [], _ :: _ => []
  | c :: cs, e :: es => { c with embedding := some e } :: applyEmbeddings cs es

/-- `PipelineOrchestrator._stage_embedding_generation`: the computation of
the rows that would be committed, or the re-raised failure. -/
def stage_embedding_generation (provider : Nat → List PyStr → Except PyExc (List V))
    (batchSize maxRetries : Nat) (committed : List (ChunkRow V)) :
    Except EmbErr (List (ChunkRow V)) :=
  match (generate_embeddings provider batchSize maxRetries (committed.map (fun c => c.chunk_text))).1 with
  | .ok embs => .ok (applyEmbeddings committed embs)
  | .error e =>
    .error (.embeddingGeneration (("Failed to generate embeddings: ".data) ++ e.message))

/-- The database state after running the stage: the new rows exactly when the
stage committed, the old rows when it raised (commit happens only after every
batch succeeded). -/
def persistedAfterEmbeddingStage (provider : Nat → List PyStr → Except PyExc (List V))
    (batchSize maxRetries : Nat) (committed : List (ChunkRow V)) : List (ChunkRow V) :=
  match stage_embedding_generation provider batchSize maxRetries committed with
  | .ok rows => rows
  | .error _ => committed

/-- Number of rows holding a persisted embedding vector. -/
def countEmbedded (rows : List (ChunkRow V)) : Nat :=
  (rows.filter (fun c => c.embedding.isSome)).length

/-! ## Embedding config lifecycle (`get_or_create_embedding_config`)

The table of `EmbeddingConfig` rows is a list; `scalar_one_or_none` returns
the single match, `none` when absent, and raises when several rows match
(modelled as the error case). -/

/-- A row of the `embedding_configs` table. -/
structure EmbeddingConfigRow where
  id : Nat
  model_name : PyStr
  model_version : PyStr
  dimensions : Nat
  is_active : Bool
deriving DecidableEq

/-- `EmbeddingGenerator.get_or_create_embedding_config`: look up the active
config for the configured model; otherwise archive every active config and
create a new active one in the same unit of work.  `nextId` stands for the
fresh primary key.  Returns the config and the new table. -/
def get_or_create_embedding_config (model : PyStr) (dims : Nat)
    (rows : List EmbeddingConfigRow) (nextId : Nat) :
    Except PyStr (EmbeddingConfigRow × List EmbeddingConfigRow) :=
  match rows.filter (fun c => c.is_active && c.model_name = model) with
  | [c] => .ok (c, rows)
  | [] =>
    let archived := rows.map (fun c => if c.is_active then { c with is_active := false } else c)
    let newConfig : EmbeddingConfigRow := ⟨nextId, model, "v1".data, dims, true⟩
    .ok (newConfig, archived ++ [newConfig])
  | _ => .error ("MultipleResultsFound".data)

/-! ## VectorRetriever (`vector_search.py`)

`VectorSearch.search` validates its arguments, embeds the query (a
single-text call through the embedding engine, a parameter here), and runs
the SQL query: keep joined `Chunk × Book` rows with
`similarity = 1 - cosine_distance(embedding, query_vector) >= threshold`
(plus the optional book-id and creation-date filters), order by similarity
descending, take `top_k`.  The store is the list of joined rows in storage
order; pgvector's `cosine_distance` is modelled over the reals; ordering by
descending similarity is a stable insertion sort, determinizing the SQL
`ORDER BY`'s tie order by storage order.  Wall-clock timing is not modelled
(`processing_time_ms` is 0). -/

/-- A joined `Chunk × Book` row as selected by `search` and
`_get_context_window`. -/
structure StoredChunk where
  chunk_id : Nat
  chunk_text : PyStr
  book_id : Nat
  book_title : PyStr
  book_author : Option PyStr
  screenshot_ids : List Nat
  chunk_sequence : Nat
  embedding : List ℝ
  book_created_at : Int

/-- A context neighbour built by `_get_context_window`: a `SearchResult`
whose `previous_chunks`/`next_chunks` stay `None`, so it is modelled without
those fields. -/
structure ContextChunk where
  chunk_id : Nat
  chunk_text : PyStr
  similarity_score : ℝ
  book_id : Nat
  book_title : PyStr
  book_author : Option PyStr
  screenshot_ids : List Nat
  chunk_sequence : Nat

/-- A ranked `SearchResult`. -/
structure VSearchResult where
  chunk_id : Nat
  chunk_text : PyStr
  similarity_score : ℝ
  book_id : Nat
  book_title : PyStr
  book_author : Option PyStr
  screenshot_ids : List Nat
  chunk_sequence : Nat
  previous_chunks : Option (List ContextChunk)
  next_chunks : Option (List ContextChunk)

/-- `SearchMetadata`; the `filters_applied` dict is its two boolean
entries. -/
structure VSearchMetadata where
  embedding_model : PyStr
  processing_time_ms : Nat
  total_results : Nat
  similarity_threshold : ℝ
  top_k : Nat
  applied_book_ids : Bool
  applied_date_range : Bool

/-- Dot product of two real vectors, pairing up to the shorter length. -/
noncomputable def dotR (a b : List ℝ) : ℝ :=
  (a.zip b).foldl (fun s p => s + p.1 * p.2) 0

/-- Euclidean norm. -/
noncomputable def normR (a : List ℝ) : ℝ := Real.sqrt (dotR a a)

/-- pgvector `cosine_distance`. -/
noncomputable def cosineDistance (a b : List ℝ) : ℝ := 1 - dotR a b / (normR a * normR b)

/-- The `similarity` column: `1 - Chunk.embedding.cosine_distance(query)`. -/
noncomputable def similarityOf (row : StoredChunk) (queryVector : List ℝ) : ℝ :=
  1 - cosineDistance row.embedding queryVector

/-- The SQL `WHERE similarity >= threshold` filter. -/
noncomputable def filterGE (f : StoredChunk → ℝ) (t : ℝ) : List StoredChunk → List StoredChunk
  | [] => []
  | x :: xs => if t ≤ f x then x :: filterGE f t xs else filterGE f t xs

/-- Stable descending insertion for `ORDER BY similarity DESC` (a row is
placed after every earlier row with similarity at least its own). -/
noncomputable def insertBySimDesc (f : StoredChunk → ℝ) (x : StoredChunk) :
    List StoredChunk → List StoredChunk
  | [] => [x]
  | y :: ys => if f x ≤ f y then y :: insertBySimDesc f x ys else x :: y :: ys

/-- Stable sort by descending similarity, ties in storage order. -/
noncomputable def sortBySimDesc (f : StoredChunk → ℝ) (l : List StoredChunk) : List StoredChunk :=
  l.foldl (fun acc x => insertBySimDesc f x acc) []

/-- The optional `Chunk.book_id.in_(book_ids)` filter; Python applies it only
when the list is truthy (non-`None` AND non-empty). -/
def applyBookFilter (bookIds : Option (List Nat)) (rows : List StoredChunk) : List StoredChunk :=
  match bookIds with
  | none => rows
  | some bs => if bs = [] then rows else rows.filter (fun r => bs.contains r.book_id)

/-- The optional `Book.created_at` date-range filter. -/
def applyDateFilter (dateRange : Option (Int × Int)) (rows : List StoredChunk) : List StoredChunk :=
  match dateRange with
  | none => rows
  | some (s, e) => rows.filter (fun r => s ≤ r.book_created_at && r.book_created_at ≤ e)

/-- Stable ascending insertion by chunk sequence number. -/
def insertBySeqAsc (x : StoredChunk) : List StoredChunk → List StoredChunk
  | [] => [x]
  | y :: ys => if y.chunk_sequence ≤ x.chunk_sequence then y :: insertBySeqAsc x ys
    else x :: y :: ys

/-- Stable descending insertion by chunk sequence number. -/
def insertBySeqDesc (x : StoredChunk) : List StoredChunk → List StoredChunk
  | [] => [x]
  | y :: ys => if x.chunk_sequence ≤ y.chunk_sequence then y :: insertBySeqDesc x ys
    else x :: y :: ys

/-- `ORDER BY chunk_sequence ASC`. -/
def sortBySeqAsc (l : List StoredChunk) : List StoredChunk :=
  l.foldl (fun acc x => insertBySeqAsc x acc) []

/-- `ORDER BY chunk_sequence DESC`. -/
def sortBySeqDesc (l : List StoredChunk) : List StoredChunk :=
  l.foldl (fun acc x => insertBySeqDesc x acc) []

/-- Rebuild a stored row as a context `SearchResult` with similarity 0
(`similarity_score=0.0`, "context chunks don't have similarity scores"). -/
noncomputable def toContextChunk (r : StoredChunk) : ContextChunk :=
  ⟨r.chunk_id, r.chunk_text, 0, r.book_id, r.book_title, r.book_author,
    r.screenshot_ids, r.chunk_sequence⟩

/-- Previous half of `VectorSearch._get_context_window`: same book, lower
sequence, descending, limit `context_size`. -/
noncomputable def contextPrevious (store : List StoredChunk) (bookId seq contextSize : Nat) :
    List ContextChunk :=
  ((sortBySeqDesc (store.filter
      (fun r => r.book_id = bookId && decide (r.chunk_sequence < seq)))).take contextSize).map
    toContextChunk

/-- Next half of `VectorSearch._get_context_window`: same book, higher
sequence, ascending, limit `context_size`. -/
noncomputable def contextNext (store : List StoredChunk) (bookId seq contextSize : Nat) :
    List ContextChunk :=
  ((sortBySeqAsc (store.filter
      (fun r => r.book_id = bookId && decide (seq < r.chunk_sequence)))).take contextSize).map
    toContextChunk

/-- Build one ranked `SearchResult`, attaching the context window exactly
when `include_context` was requested. -/
noncomputable def toSearchResult (store : List StoredChunk) (queryVector : List ℝ)
    (includeContext : Bool) (contextSize : Nat) (r : StoredChunk) : VSearchResult :=
  ⟨r.chunk_id, r.chunk_text, similarityOf r queryVector, r.book_id, r.book_title,
    r.book_author, r.screenshot_ids, r.chunk_sequence,
    if includeContext then some (contextPrevious store r.book_id r.chunk_sequence contextSize)
      else none,
    if includeContext then some (contextNext store r.book_id r.chunk_sequence contextSize)
      else none⟩

/-- `VectorSearch.search`.  `embedText` is the query-embedding call through
the engine; defaults in the code are `top_k=10`, `similarity_threshold=0.7`,
`include_context=False`, `context_size=1`. -/
noncomputable def vectorSearch (store : List StoredChunk) (embedText : PyStr → List ℝ)
    (modelName : PyStr) (queryText : PyStr) (topK : Nat) (similarityThreshold : ℝ)
    (bookIds : Option (List Nat)) (dateRange : Option (Int × Int))
    (includeContext : Bool) (contextSize : Nat) :
    Except PyStr (List VSearchResult × VSearchMetadata) :=
  if stripStr queryText = [] then .error ("Query text cannot be empty".data)
  else if ¬(0 ≤ similarityThreshold ∧ similarityThreshold ≤ 1) then
    .error ("similarity_threshold must be between 0 and 1".data)
  else if topK < 1 then .error ("top_k must be at least 1".data)
  else
    let queryVector := embedText queryText
    let candidates :=
      applyDateFilter dateRange (applyBookFilter bookIds
        (filterGE (fun r => similarityOf r queryVector) similarityThreshold store))
    let ranked := (sortBySimDesc (fun r => similarityOf r queryVector) candidates).take topK
    let results := ranked.map (toSearchResult store queryVector includeContext contextSize)
    .ok (results,
      ⟨modelName, 0, results.length, similarityThreshold, topK,
        bookIds.isSome, dateRange.isSome⟩)

/-! ## Theorems: Deduplicator -/

/-- Survivors of the page-dedup loop form a sublist of the input. -/
theorem dedupPagesLoop_sublist (hash : PyStr → Nat) :
    ∀ (pages : List ExtractedContent) (seen : List Nat),
      (dedupPagesLoop hash pages seen).Sublist pages := by
  intro pages
  induction pages with
  | nil => intro seen; simp [dedupPagesLoop]
  | cons p ps ih =>
    intro seen
    rw [dedupPagesLoop]
    by_cases h : hash p.text ∈ seen
    · simp only [if_pos h]
      exact (ih seen).cons p
    · simp only [if_neg h]
      exact (ih (hash p.text :: seen)).cons₂ p

/-- Survivors of the chunk-dedup loop form a sublist of the input. -/
theorem dedupChunksLoop_sublist {M : Type} (near : M → M → Bool) (mh : PyStr → M) :
    ∀ (chunks : List WebChunk) (idx : LSHIndex M) (kept : Nat),
      (dedupChunksLoop near mh chunks idx kept).Sublist chunks := by
  intro chunks
  induction chunks with
  | nil => intro idx kept; simp [dedupChunksLoop]
  | cons c cs ih =>
    intro idx kept
    rw [dedupChunksLoop]
    by_cases h1 : c.text.getD [] = []
    · simp only [if_pos h1]
      exact (ih idx kept).cons c
    · simp only [if_neg h1]
      by_cases h2 : lshQuery near idx (mh (c.text.getD [])) = []
      · simp only [if_pos h2]
        exact (ih _ _).cons₂ c
      · simp only [if_neg h2]
        exact (ih idx kept).cons c

/-- Every survivor of the chunk-dedup loop has non-empty text. -/
theorem dedupChunksLoop_text_ne_empty {M : Type} (near : M → M → Bool) (mh : PyStr → M) :
    ∀ (chunks : List WebChunk) (idx : LSHIndex M) (kept : Nat) (c : WebChunk),
      c ∈ dedupChunksLoop near mh chunks idx kept → c.text.getD [] ≠ [] := by
  intro chunks
  induction chunks with
  | nil => intro idx kept c hc; simp [dedupChunksLoop] at hc
  | cons d ds ih =>
    intro idx kept c hc
    rw [dedupChunksLoop] at hc
    by_cases h1 : d.text.getD [] = []
    · rw [if_pos h1] at hc
      exact ih idx kept c hc
    · rw [if_neg h1] at hc
      by_cases h2 : lshQuery near idx (mh (d.text.getD [])) = []
      · rw [if_pos h2] at hc
        rcases List.mem_cons.mp hc with h | h
        · rw [h]; exact h1
        · exact ih _ _ c h
      · rw [if_neg h2] at hc
        exact ih idx kept c hc

/-- C10: `deduplicate_chunks` unconditionally drops every chunk whose `text`
field is empty or missing — regardless of the LSH index contents, an
empty-text chunk never appears among the survivors. -/
theorem dedup_chunks_never_keeps_empty_text {M : Type} (near : M → M → Bool)
    (mh : PyStr → M) (chunks : List WebChunk) (c : WebChunk)
    (hempty : c.text.getD [] = []) :
    c ∉ deduplicate_chunks near mh chunks := by
  rw [deduplicate_chunks]
  by_cases h : chunks = []
  · rw [if_pos h, h]; simp
  · rw [if_neg h]
    intro hc
    exact dedupChunksLoop_text_ne_empty near mh chunks [] 0 c hc hempty

/-- Witness for C10: a chunk with empty text and fresh id is dropped even by
a run whose near-match test never fires. -/
theorem dedup_chunks_never_keeps_empty_text_witness :
    (⟨some ['a'], some []⟩ : WebChunk) ∉
      deduplicate_chunks (M := Unit) (fun _ _ => false) (fun _ => ())
        [⟨some ['a'], some []⟩, ⟨some ['b'], some ['x']⟩] :=
  dedup_chunks_never_keeps_empty_text (fun _ _ => false) (fun _ => ())
    [⟨some ['a'], some []⟩, ⟨some ['b'], some ['x']⟩] ⟨some ['a'], some []⟩ rfl

/-- C5 counterexample: a chunk whose text key holds the empty string is
dropped by `deduplicate_chunks` although no near-match exists in the (still
empty) LSH index — even under a near-match test that always fires — so
"drops if and only if a near-match already exists" fails as stated. -/
theorem dedup_chunks_drop_iff_counterexample :
    deduplicate_chunks (M := Unit) (fun _ _ => true) (fun _ => ())
        [⟨some ['a'], some []⟩] = [] ∧
      lshQuery (M := Unit) (fun _ _ => true) [] () = [] ∧
      ([] : List WebChunk) ≠ [⟨some ['a'], some []⟩] := by
  refine ⟨rfl, rfl, ?_⟩
  decide

/-- C5 (amended): `deduplicate_pages` and `deduplicate_chunks` are
order-preserving subsequence filters of their input (so survivors are input
elements, unmutated), and for a chunk with NON-empty text the loop keeps it
and inserts it into the index exactly when the LSH query finds no near-match,
dropping it otherwise; chunks with empty or missing text are dropped
unconditionally (see C10). -/
theorem dedup_order_preserving_and_drop_condition {M : Type} (hash : PyStr → Nat)
    (near : M → M → Bool) (mh : PyStr → M) (pages : List ExtractedContent)
    (chunks : List WebChunk) (idx : LSHIndex M) (kept : Nat) (c : WebChunk)
    (cs : List WebChunk) (htext : c.text.getD [] ≠ []) :
    (deduplicate_pages hash pages).Sublist pages ∧
      (deduplicate_chunks near mh chunks).Sublist chunks ∧
      (lshQuery near idx (mh (c.text.getD [])) = [] →
        dedupChunksLoop near mh (c :: cs) idx kept =
          c :: dedupChunksLoop near mh cs
            (lshInsert idx (c.id.getD (Nat.repr kept).data) (mh (c.text.getD []))) (kept + 1)) ∧
      (lshQuery near idx (mh (c.text.getD [])) ≠ [] →
        dedupChunksLoop near mh (c :: cs) idx kept = dedupChunksLoop near mh cs idx kept) := by
  refine ⟨dedupPagesLoop_sublist hash pages [], ?_, ?_, ?_⟩
  · rw [deduplicate_chunks]
    by_cases h : chunks = []
    · rw [if_pos h]
    · rw [if_neg h]
      exact dedupChunksLoop_sublist near mh chunks [] 0
  · intro hq
    rw [dedupChunksLoop, if_neg htext, if_pos hq]
  · intro hq
    rw [dedupChunksLoop, if_neg htext, if_neg hq]

/-- Witness for C5 (amended): concrete run with a kept chunk. -/
theorem dedup_order_preserving_and_drop_condition_witness :
    (deduplicate_pages (fun t => t.length) [⟨['u'], ['x']⟩]).Sublist [⟨['u'], ['x']⟩] ∧
      (deduplicate_chunks (M := Unit) (fun _ _ => false) (fun _ => ())
        [⟨some ['a'], some ['x']⟩]).Sublist [⟨some ['a'], some ['x']⟩] ∧
      (lshQuery (M := Unit) (fun _ _ => false) [] () = [] →
        dedupChunksLoop (M := Unit) (fun _ _ => false) (fun _ => ())
            [⟨some ['a'], some ['x']⟩] [] 0 =
          (⟨some ['a'], some ['x']⟩ : WebChunk) ::
            dedupChunksLoop (M := Unit) (fun _ _ => false) (fun _ => ()) []
              (lshInsert [] ((some ['a']).getD (Nat.repr 0).data) ()) 1) ∧
      (lshQuery (M := Unit) (fun _ _ => false) [] () ≠ [] →
        dedupChunksLoop (M := Unit) (fun _ _ => false) (fun _ => ())
            [⟨some ['a'], some ['x']⟩] [] 0 =
          dedupChunksLoop (M := Unit) (fun _ _ => false) (fun _ => ()) [] [] 0) := by
  have h := dedup_order_preserving_and_drop_condition (M := Unit) (fun t => t.length)
    (fun _ _ => false) (fun _ => ()) [⟨['u'], ['x']⟩] [⟨some ['a'], some ['x']⟩] [] 0
    ⟨some ['a'], some ['x']⟩ [] (by decide)
  exact h

/-! ## Theorems: SemanticChunker sequence numbers -/

/-- The loop invariant of `_build_chunks_with_overlap`: emitted chunks carry
sequence numbers `1..len` and the pending sequence number is `len + 1`. -/
def SeqInvariant (st : ChunkState) : Prop :=
  st.chunks.map (fun c => c.chunk_sequence) = List.range' 1 st.chunks.length ∧
    st.seq = st.chunks.length + 1

/-- One `buildStep` preserves the sequence invariant. -/
theorem buildStep_seq_invariant (tok : PyStr → Nat)
    (chunkSize overlapTokens pctNum pctDen : Nat) (mapping : List (Nat × Nat))
    (st : ChunkState) (p : PyStr) (h : SeqInvariant st) :
    SeqInvariant (buildStep tok chunkSize overlapTokens pctNum pctDen mapping st p) := by
  obtain ⟨hmap, hseq⟩ := h
  rw [buildStep]
  by_cases hc : tok (if st.current ≠ [] then joinSep blankSep (st.current ++ [p])
      else p) > chunkSize ∧ st.current ≠ []
  · rw [if_pos hc]
    constructor
    · simp only [List.map_append, List.length_append, List.map_cons, List.map_nil,
        List.length_cons, List.length_nil]
      rw [hmap, hseq]
      rw [List.range'_concat 1 st.chunks.length]
      simp [Nat.add_comm]
    · simp [hseq]
  · rw [if_neg hc]
    exact ⟨hmap, hseq⟩

/-- The paragraph fold preserves the sequence invariant. -/
theorem buildFold_seq_invariant (tok : PyStr → Nat)
    (chunkSize overlapTokens pctNum pctDen : Nat) (mapping : List (Nat × Nat)) :
    ∀ (paragraphs : List PyStr) (st : ChunkState), SeqInvariant st →
      SeqInvariant (paragraphs.foldl
        (buildStep tok chunkSize overlapTokens pctNum pctDen mapping) st) := by
  intro paragraphs
  induction paragraphs with
  | nil => intro st h; exact h
  | cons p ps ih =>
    intro st h
    exact ih _ (buildStep_seq_invariant tok chunkSize overlapTokens pctNum pctDen mapping st p h)

/-- `build_chunks_with_overlap` numbers its chunks `1..N` densely. -/
theorem build_chunks_seq_range (tok : PyStr → Nat)
    (chunkSize overlapTokens pctNum pctDen : Nat) (mapping : List (Nat × Nat))
    (paragraphs : List PyStr) :
    (build_chunks_with_overlap tok chunkSize overlapTokens pctNum pctDen mapping
        paragraphs).map (fun c => c.chunk_sequence) =
      List.range' 1 (build_chunks_with_overlap tok chunkSize overlapTokens pctNum pctDen mapping
        paragraphs).length := by
  rw [build_chunks_with_overlap]
  obtain ⟨hmap, hseq⟩ := buildFold_seq_invariant tok chunkSize overlapTokens pctNum pctDen
    mapping paragraphs ⟨[], [], 1, 0⟩ (by constructor <;> rfl)
  set st := paragraphs.foldl (buildStep tok chunkSize overlapTokens pctNum pctDen mapping)
    ⟨[], [], 1, 0⟩ with hst
  by_cases hcur : st.current ≠ []
  · rw [if_pos hcur]
    simp only [List.map_append, List.length_append, List.map_cons, List.map_nil,
      List.length_cons, List.length_nil]
    rw [hmap, hseq, List.range'_concat 1 st.chunks.length]
    simp [Nat.add_comm]
  · rw [if_neg hcur]
    exact hmap

/-- C8: for every input (any tokenizer, budget, overlap percentage, lineage
mapping and text, including non-empty ones), the chunker emits chunks whose
sequence numbers are exactly `1..N` in order — 1-based, dense, strictly
increasing, no gaps and no repeats. -/
theorem chunker_sequence_numbers_dense (tok : PyStr → Nat)
    (chunkSize pctNum pctDen : Nat) (text : PyStr) (mapping : List (Nat × Nat)) :
    (chunk_extracted_text tok chunkSize pctNum pctDen text mapping).map
        (fun c => c.chunk_sequence) =
      List.range' 1 (chunk_extracted_text tok chunkSize pctNum pctDen text mapping).length := by
  rw [chunk_extracted_text]
  by_cases h : text = [] ∨ stripStr text = []
  · rw [if_pos h]; rfl
  · rw [if_neg h]
    exact build_chunks_seq_range tok chunkSize _ pctNum pctDen mapping _

/-! ## Theorems: SemanticChunker lineage -/

/-- Reference set for the lineage loop: the ids mapped at the listed offsets
that are at most `endPos`. -/
def keysImage (mapping : List (Nat × Nat)) (endPos : Nat) : List Nat → Finset Nat
  | [] => ∅
  | p :: ps =>
    if p ≤ endPos then addMappedId mapping (keysImage mapping endPos ps) p
    else keysImage mapping endPos ps

/-- Adding a mapped id commutes across a union. -/
theorem addMappedId_union (mapping : List (Nat × Nat)) (acc s : Finset Nat) (p : Nat) :
    addMappedId mapping acc p ∪ s = acc ∪ addMappedId mapping s p := by
  unfold addMappedId
  cases h : mapping.lookup p with
  | none => rfl
  | some v => rw [Finset.insert_union, Finset.union_insert]

/-- Adding the same mapped id twice is adding it once. -/
theorem addMappedId_idem (mapping : List (Nat × Nat)) (s : Finset Nat) (p : Nat) :
    addMappedId mapping (addMappedId mapping s p) p = addMappedId mapping s p := by
  unfold addMappedId
  cases h : mapping.lookup p with
  | none => rfl
  | some v => simp

/-- Membership in `addMappedId`. -/
theorem mem_addMappedId (mapping : List (Nat × Nat)) (s : Finset Nat) (p x : Nat) :
    x ∈ addMappedId mapping s p ↔ mapping.lookup p = some x ∨ x ∈ s := by
  unfold addMappedId
  cases h : mapping.lookup p with
  | none => simp
  | some v => simp [eq_comm]

/-- The inner "look at the next sorted offset" additions of
`_get_screenshot_ids_for_range` are absorbed by the outer sweep: the loop
accumulates exactly the ids mapped at offsets `≤ endPos`. -/
theorem screenshotLoop_eq_union (mapping : List (Nat × Nat)) (startPos endPos : Nat) :
    ∀ (ps : List Nat) (acc : Finset Nat),
      screenshotLoop mapping startPos endPos ps acc = acc ∪ keysImage mapping endPos ps := by
  intro ps
  induction ps with
  | nil => intro acc; simp [screenshotLoop, keysImage]
  | cons pos rest ih =>
    intro acc
    rw [screenshotLoop, keysImage]
    by_cases hpos : pos ≤ endPos
    · rw [if_pos hpos, if_pos hpos]
      by_cases hsp : startPos ≤ pos
      · cases rest with
        | nil =>
          simp only [if_pos hsp]
          rw [ih, keysImage, Finset.union_empty, ← addMappedId_union mapping acc ∅ pos,
            Finset.union_empty]
        | cons nextPos rest2 =>
          simp only [if_pos hsp]
          by_cases hnext : nextPos ≤ endPos
          · rw [if_pos hnext, ih]
            rw [keysImage, if_pos hnext]
            calc addMappedId mapping (addMappedId mapping acc pos) nextPos ∪
                  addMappedId mapping (keysImage mapping endPos rest2) nextPos
                = addMappedId mapping acc pos ∪ addMappedId mapping
                    (addMappedId mapping (keysImage mapping endPos rest2) nextPos) nextPos := by
                  rw [addMappedId_union]
              _ = addMappedId mapping acc pos ∪
                    addMappedId mapping (keysImage mapping endPos rest2) nextPos := by
                  rw [addMappedId_idem]
              _ = acc ∪ addMappedId mapping
                    (addMappedId mapping (keysImage mapping endPos rest2) nextPos) pos := by
                  rw [addMappedId_union]
          · rw [if_neg hnext, ih]
            rw [keysImage, if_neg hnext]
            rw [addMappedId_union]
      · simp only [if_neg hsp]
        rw [ih]
        rw [addMappedId_union]
    · rw [if_neg hpos, if_neg hpos]
      exact ih acc

/-- Membership in `keysImage`. -/
theorem mem_keysImage (mapping : List (Nat × Nat)) (endPos : Nat) :
    ∀ (ps : List Nat) (x : Nat),
      x ∈ keysImage mapping endPos ps ↔
        ∃ p, p ∈ ps ∧ p ≤ endPos ∧ mapping.lookup p = some x := by
  intro ps
  induction ps with
  | nil => intro x; simp [keysImage]
  | cons p rest ih =>
    intro x
    rw [keysImage]
    by_cases hp : p ≤ endPos
    · rw [if_pos hp, mem_addMappedId, ih]
      constructor
      · rintro (h | ⟨q, hq, hqe, hl⟩)
        · exact ⟨p, List.mem_cons_self p rest, hp, h⟩
        · exact ⟨q, List.mem_cons_of_mem p hq, hqe, hl⟩
      · rintro ⟨q, hq, hqe, hl⟩
        rcases List.mem_cons.mp hq with rfl | hq2
        · exact Or.inl hl
        · exact Or.inr ⟨q, hq2, hqe, hl⟩
    · rw [if_neg hp, ih]
      constructor
      · rintro ⟨q, hq, hqe, hl⟩
        exact ⟨q, List.mem_cons_of_mem p hq, hqe, hl⟩
      · rintro ⟨q, hq, hqe, hl⟩
        rcases List.mem_cons.mp hq with rfl | hq2
        · exact absurd hqe hp
        · exact ⟨q, hq2, hqe, hl⟩

/-- Membership in an ascending insertion. -/
theorem mem_insertNatAsc (y x : Nat) :
    ∀ (l : List Nat), x ∈ insertNatAsc y l ↔ x = y ∨ x ∈ l := by
  intro l
  induction l with
  | nil => simp [insertNatAsc]
  | cons a l ih =>
    rw [insertNatAsc]
    by_cases h : y ≤ a
    · rw [if_pos h]; simp
    · rw [if_neg h]
      simp only [List.mem_cons, ih]
      tauto

/-- Sorting keeps exactly the input elements. -/
theorem mem_sortNat (x : Nat) : ∀ (l : List Nat), x ∈ sortNat l ↔ x ∈ l := by
  intro l
  induction l with
  | nil => simp [sortNat]
  | cons a l ih =>
    show x ∈ insertNatAsc a (sortNat l) ↔ _
    rw [mem_insertNatAsc]
    simp only [List.mem_cons, ih]

/-- A successful lookup returns a stored binding. -/
theorem lookup_mem : ∀ (m : List (Nat × Nat)) (k v : Nat),
    m.lookup k = some v → (k, v) ∈ m := by
  intro m
  induction m with
  | nil => intro k v h; simp [List.lookup] at h
  | cons a m ih =>
    obtain ⟨a1, a2⟩ := a
    intro k v h
    simp only [List.lookup] at h
    rcases Bool.eq_false_or_eq_true (k == a1) with hk | hk
    · simp only [hk] at h
      injection h with hv
      have hk2 : k = a1 := by simpa using hk
      rw [hk2, ← hv]
      exact List.mem_cons_self _ _
    · simp only [hk] at h
      exact List.mem_cons_of_mem _ (ih k v h)


/-- With distinct keys, every stored binding is found by lookup. -/
theorem mem_lookup_of_nodup : ∀ (m : List (Nat × Nat)) (k v : Nat),
    (m.map Prod.fst).Nodup → (k, v) ∈ m → m.lookup k = some v := by
  intro m
  induction m with
  | nil => intro k v _ h; simp at h
  | cons a m ih =>
    intro k v hnd hm
    rw [List.map_cons, List.nodup_cons] at hnd
    simp only [List.lookup]
    rcases List.mem_cons.mp hm with rfl | hm2
    · simp
    · have hk : k ≠ a.1 := by
        intro hke
        exact hnd.1 (hke ▸ List.mem_map_of_mem Prod.fst hm2)
      have hbeq : (k == a.1) = false := beq_eq_false_iff_ne.mpr hk
      simp only [hbeq]
      exact ih k v hnd.2 hm2

/-- The characterization of `_get_screenshot_ids_for_range`: the returned
unit set consists of the ids mapped at EVERY offset `≤ endPos`, the chunk's
start position playing no role. -/
theorem get_screenshot_ids_characterization (startPos endPos : Nat)
    (mapping : List (Nat × Nat)) (hk : (mapping.map Prod.fst).Nodup) :
    get_screenshot_ids_for_range startPos endPos mapping =
      ((mapping.filter (fun p => p.1 ≤ endPos)).map Prod.snd).toFinset := by
  rw [get_screenshot_ids_for_range, screenshotLoop_eq_union, Finset.empty_union]
  ext x
  rw [mem_keysImage]
  simp only [List.mem_toFinset, List.mem_map, List.mem_filter, decide_eq_true_eq]
  constructor
  · rintro ⟨p, _, hpe, hl⟩
    exact ⟨(p, x), ⟨lookup_mem mapping p x hl, hpe⟩, rfl⟩
  · rintro ⟨⟨p, v⟩, ⟨hm, hpe⟩, hv⟩
    refine ⟨p, ?_, hpe, ?_⟩
    · rw [mem_sortNat]
      exact List.mem_map_of_mem Prod.fst hm
    · rw [← hv]
      exact mem_lookup_of_nodup mapping p v hk hm

/-- C3 counterexample: mapping `{0 ↦ 100, 10 ↦ 200}`, chunk range `[12, 15]`
lies strictly inside the page starting at offset 10 (no mapped offset falls
strictly inside the range), yet the lineage computation returns 2 unit ids,
not 1 — it also collects the id of every earlier page. -/
theorem lineage_single_page_counterexample :
    (∀ p ∈ ([(0, 100), (10, 200)] : List (Nat × Nat)).map Prod.fst, ¬(12 < p ∧ p < 15)) ∧
      get_screenshot_ids_for_range 12 15 [(0, 100), (10, 200)] = {100, 200} ∧
      (get_screenshot_ids_for_range 12 15 [(0, 100), (10, 200)]).card ≠ 1 := by
  decide

/-- C3 (amended): the lineage set contains exactly the units mapped at every
offset `≤ chunkEnd`.  Consequently offset 0 always contributes the first
unit, any two distinct units mapped at or before `chunkEnd` force a set of 2
or more, and a unit set of exactly 1 arises only when the chunk lies inside
the FIRST page — not for every single-page chunk. -/
theorem lineage_units_every_offset_le_end (startPos endPos : Nat)
    (mapping : List (Nat × Nat)) (hk : (mapping.map Prod.fst).Nodup) :
    get_screenshot_ids_for_range startPos endPos mapping =
        ((mapping.filter (fun p => p.1 ≤ endPos)).map Prod.snd).toFinset ∧
      (∀ u, (0, u) ∈ mapping → u ∈ get_screenshot_ids_for_range startPos endPos mapping) ∧
      (∀ p q u v, (p, u) ∈ mapping → (q, v) ∈ mapping → p ≤ endPos → q ≤ endPos → u ≠ v →
        2 ≤ (get_screenshot_ids_for_range startPos endPos mapping).card) := by
  have hchar := get_screenshot_ids_characterization startPos endPos mapping hk
  refine ⟨hchar, ?_, ?_⟩
  · intro u hu
    rw [hchar]
    simp only [List.mem_toFinset, List.mem_map, List.mem_filter, decide_eq_true_eq]
    exact ⟨(0, u), ⟨hu, Nat.zero_le endPos⟩, rfl⟩
  · intro p q u v hpu hqv hpe hqe huv
    have hsub : ({u, v} : Finset Nat) ⊆ get_screenshot_ids_for_range startPos endPos mapping := by
      rw [hchar]
      intro x hx
      simp only [Finset.mem_insert, Finset.mem_singleton] at hx
      simp only [List.mem_toFinset, List.mem_map, List.mem_filter, decide_eq_true_eq]
      rcases hx with rfl | rfl
      · exact ⟨(p, x), ⟨hpu, hpe⟩, rfl⟩
      · exact ⟨(q, x), ⟨hqv, hqe⟩, rfl⟩
    calc 2 = ({u, v} : Finset Nat).card := (Finset.card_pair huv).symm
      _ ≤ _ := Finset.card_le_card hsub

/-- Witness for C3 (amended): the two-page mapping evaluated concretely. -/
theorem lineage_units_every_offset_le_end_witness :
    get_screenshot_ids_for_range 12 15 [(0, 100), (10, 200)] =
        ((([(0, 100), (10, 200)] : List (Nat × Nat)).filter
          (fun p => p.1 ≤ 15)).map Prod.snd).toFinset ∧
      (∀ u, (0, u) ∈ ([(0, 100), (10, 200)] : List (Nat × Nat)) →
        u ∈ get_screenshot_ids_for_range 12 15 [(0, 100), (10, 200)]) ∧
      (∀ p q u v, (p, u) ∈ ([(0, 100), (10, 200)] : List (Nat × Nat)) →
        (q, v) ∈ ([(0, 100), (10, 200)] : List (Nat × Nat)) → p ≤ 15 → q ≤ 15 → u ≠ v →
        2 ≤ (get_screenshot_ids_for_range 12 15 [(0, 100), (10, 200)]).card) :=
  lineage_units_every_offset_le_end 12 15 [(0, 100), (10, 200)] (by decide)

/-! ## Theorems: SemanticChunker overlap seed -/

/-- A concrete tokenizer counting whitespace-separated words, standing in
for the external tiktoken counter in concrete evaluations. -/
def tokWords (l : PyStr) : Nat := (wordsOf l).length

/-- C4 (amended): when the next paragraph would overflow the budget, the
closed chunk's text is emitted and the next chunk opens with
`[overlap seed, paragraph]`; the seed is the ENTIRE closed chunk text when
the closed chunk's token count is at most `overlap_tokens`, and otherwise it
is the last `max 1 ⌊overlapRatio * wordCount⌋` whitespace-split words of the
closed chunk (word count, not tokens), re-joined with single spaces. -/
theorem overlap_seed_on_chunk_close (tok : PyStr → Nat)
    (chunkSize overlapTokens pctNum pctDen : Nat) (mapping : List (Nat × Nat))
    (st : ChunkState) (p : PyStr)
    (hover : tok (joinSep blankSep (st.current ++ [p])) > chunkSize)
    (hne : st.current ≠ []) :
    (∃ meta, (buildStep tok chunkSize overlapTokens pctNum pctDen mapping st p).chunks
        = st.chunks ++ [meta] ∧ meta.chunk_text = joinSep blankSep st.current) ∧
      (buildStep tok chunkSize overlapTokens pctNum pctDen mapping st p).current =
        [calculate_overlap_text tok overlapTokens pctNum pctDen (joinSep blankSep st.current),
          p] ∧
      (tok (joinSep blankSep st.current) ≤ overlapTokens →
        calculate_overlap_text tok overlapTokens pctNum pctDen (joinSep blankSep st.current)
          = joinSep blankSep st.current) ∧
      (overlapTokens < tok (joinSep blankSep st.current) →
        calculate_overlap_text tok overlapTokens pctNum pctDen (joinSep blankSep st.current)
          = joinSep [' '] ((wordsOf (joinSep blankSep st.current)).drop
              ((wordsOf (joinSep blankSep st.current)).length -
                max 1 ((wordsOf (joinSep blankSep st.current)).length * pctNum / pctDen)))) := by
  have hcond : tok (if st.current ≠ [] then joinSep blankSep (st.current ++ [p]) else p)
      > chunkSize ∧ st.current ≠ [] := by
    rw [if_pos hne]
    exact ⟨hover, hne⟩
  refine ⟨?_, ?_, ?_, ?_⟩
  · rw [buildStep, if_pos hcond]
    exact ⟨_, rfl, rfl⟩
  · rw [buildStep, if_pos hcond]
  · intro h
    rw [calculate_overlap_text, if_pos h]
  · intro h
    rw [calculate_overlap_text, if_neg (not_le.mpr h)]
    have hmax : ∀ n : Nat, (if n = 0 then 1 else n) = max 1 n := by
      intro n
      rcases Nat.eq_zero_or_pos n with rfl | hn
      · simp
      · rw [if_neg (by omega), Nat.max_eq_right hn]
    simp only [hmax]

/-- Witness for C4 (amended): closing the chunk `"a b"` (word-count
tokenizer, budget 14, 15% overlap) at a 13-word overflowing paragraph. -/
theorem overlap_seed_on_chunk_close_witness :
    tokWords (joinSep blankSep ((⟨[], [("a b").data], 1, 0⟩ : ChunkState).current ++
        [("c c c c c c c c c c c c c").data])) > 14 ∧
      (⟨[], [("a b").data], 1, 0⟩ : ChunkState).current ≠ [] ∧
      (buildStep tokWords 14 2 15 100 [(0, 1)] ⟨[], [("a b").data], 1, 0⟩
          ("c c c c c c c c c c c c c").data).current =
        [calculate_overlap_text tokWords 2 15 100
            (joinSep blankSep (⟨[], [("a b").data], 1, 0⟩ : ChunkState).current),
          ("c c c c c c c c c c c c c").data] :=
  ⟨by decide, by decide,
    (overlap_seed_on_chunk_close tokWords 14 2 15 100 [(0, 1)] ⟨[], [("a b").data], 1, 0⟩
      (("c c c c c c c c c c c c c").data) (by decide) (by decide)).2.1⟩

/-- C4 counterexample: with a word-count tokenizer, budget 14 and overlap
ratio 15/100, the text `"a b\n\n<13 words>"` closes the first chunk `"a b"`
(2 tokens ≤ overlap budget 2), so the seed is the WHOLE closed chunk and the
second chunk is `"a b\n\n<13 words>"` — not `"b\n\n<13 words>"` (last
`max 1 ⌊0.15 * 2⌋ = 1` word) nor `"\n\n<13 words>"` (last `⌊0.15 * 2⌋ = 0`
words), the two readings of "the last overlapRatio fraction of words". -/
theorem overlap_seed_counterexample :
    (chunk_extracted_text tokWords 14 15 100 ("a b\n\nc c c c c c c c c c c c c").data
        [(0, 1)]).map (fun c => c.chunk_text) =
      [("a b").data, ("a b\n\nc c c c c c c c c c c c c").data] ∧
      ("a b\n\nc c c c c c c c c c c c c").data ≠
        ("b").data ++ blankSep ++ ("c c c c c c c c c c c c c").data ∧
      ("a b\n\nc c c c c c c c c c c c c").data ≠
        blankSep ++ ("c c c c c c c c c c c c c").data := by
  refine ⟨?_, by decide, by decide⟩
  decide

/-! ## Theorems: EmbeddingBatchEngine failure typing and persistence -/

/-- Under a provider that always rate-limits, the batch retry loop exhausts
its retries and reports the typed `OpenAIRateLimitError`. -/
theorem generateBatchLoop_rate_limited {V : Type}
    (provider : Nat → List PyStr → Except PyExc (List V)) (texts : List PyStr)
    (maxRetries : Nat)
    (hrl : ∀ i ts, ∃ m, provider i ts = .error (.rateLimitError m)) :
    ∀ (retriesLeft calls : Nat),
      ∃ m, (generateBatchLoop provider texts maxRetries retriesLeft calls).1
        = .error (.openAIRateLimit m) := by
  intro retriesLeft
  induction retriesLeft with
  | zero =>
    intro calls
    obtain ⟨m, hm⟩ := hrl calls texts
    rw [generateBatchLoop, hm]
    exact ⟨_, rfl⟩
  | succ k ih =>
    intro calls
    obtain ⟨m, hm⟩ := hrl calls texts
    rw [generateBatchLoop, hm]
    exact ih (calls + 1)

/-- Every failure coming out of the public `generate_embeddings` entry point
is the generic `EmbeddingGenerationError`: the `except Exception` wrapper
re-types everything, including the rate-limit exhaustion. -/
theorem generate_embeddings_error_is_generic {V : Type}
    (provider : Nat → List PyStr → Except PyExc (List V)) (batchSize maxRetries : Nat)
    (texts : List PyStr) (e : EmbErr)
    (h : (generate_embeddings provider batchSize maxRetries texts).1 = .error e) :
    ∃ m, e = .embeddingGeneration m := by
  rw [generate_embeddings] at h
  by_cases ht : texts = []
  · rw [if_pos ht] at h
    simp at h
  · rw [if_neg ht] at h
    simp only [] at h
    rcases hres : embedBatchesLoop provider batchSize maxRetries texts
        ((texts.length + batchSize - 1) / batchSize) 0 0 [] with ⟨r, calls⟩
    rw [hres] at h
    cases r with
    | ok embs => simp at h
    | error e2 =>
      simp only at h
      injection h with h2
      exact ⟨_, h2.symm⟩

/-- C2 (amended): when every provider call rate-limits, the inner
`_generate_batch_embeddings` does raise the distinguishing
`OpenAIRateLimitError` after exhausting its retries, but the public
`generate_embeddings` entry point catches it and re-raises the generic
`EmbeddingGenerationError`, so the type reaching the caller does NOT
distinguish rate-limit exhaustion from other provider failures. -/
theorem rate_limit_exhaustion_wrapped_as_generic {V : Type}
    (provider : Nat → List PyStr → Except PyExc (List V)) (batchSize maxRetries : Nat)
    (texts : List PyStr)
    (hrl : ∀ i ts, ∃ m, provider i ts = .error (.rateLimitError m))
    (hne : texts ≠ []) (hbs : 0 < batchSize) :
    (∀ bts calls, ∃ m, (generate_batch_embeddings provider bts maxRetries calls).1
        = .error (.openAIRateLimit m)) ∧
      ∃ m, (generate_embeddings provider batchSize maxRetries texts).1
        = .error (.embeddingGeneration m) := by
  have hbatch : ∀ (bts : List PyStr) (calls : Nat),
      ∃ m, (generate_batch_embeddings provider bts maxRetries calls).1
        = .error (.openAIRateLimit m) := by
    intro bts calls
    rw [generate_batch_embeddings]
    exact generateBatchLoop_rate_limited provider bts maxRetries hrl maxRetries calls
  refine ⟨hbatch, ?_⟩
  rw [generate_embeddings, if_neg hne]
  simp only []
  have hlen : 0 < texts.length := List.length_pos.mpr hne
  obtain ⟨t, htb⟩ : ∃ t, (texts.length + batchSize - 1) / batchSize = t + 1 := by
    have hpos : 0 < (texts.length + batchSize - 1) / batchSize :=
      Nat.div_pos (by omega) hbs
    exact ⟨(texts.length + batchSize - 1) / batchSize - 1, by omega⟩
  rw [htb]
  obtain ⟨m, hm⟩ := hbatch ((texts.drop (0 * batchSize)).take batchSize) 0
  rcases hgb : generate_batch_embeddings provider ((texts.drop (0 * batchSize)).take batchSize)
      maxRetries 0 with ⟨gr, gcalls⟩
  rw [hgb] at hm
  simp only [] at hm
  subst hm
  simp only [embedBatchesLoop, hgb]
  exact ⟨_, rfl⟩

/-- A provider that always reports a rate limit (concrete runs for C2). -/
def alwaysRateLimited (V : Type) : Nat → List PyStr → Except PyExc (List V) :=
  fun _ _ => .error (.rateLimitError ("Rate limit exceeded").data)

/-- Witness for C2 (amended): one text, batch size 100, 3 retries. -/
theorem rate_limit_exhaustion_wrapped_as_generic_witness :
    (∀ i ts, ∃ m, alwaysRateLimited Nat i ts = .error (.rateLimitError m)) ∧
      ([("chunk 1").data] : List PyStr) ≠ [] ∧ (0 : Nat) < 100 ∧
      ((∀ bts calls, ∃ m,
          (generate_batch_embeddings (alwaysRateLimited Nat) bts 3 calls).1
            = .error (.openAIRateLimit m)) ∧
        ∃ m, (generate_embeddings (alwaysRateLimited Nat) 100 3 [("chunk 1").data]).1
          = .error (.embeddingGeneration m)) :=
  ⟨fun _ _ => ⟨_, rfl⟩, by decide, by decide,
    rate_limit_exhaustion_wrapped_as_generic (alwaysRateLimited Nat) 100 3
      [("chunk 1").data] (fun _ _ => ⟨_, rfl⟩) (by decide) (by decide)⟩

/-- C2 counterexample: with every provider call rate-limited (the repo's own
`test_rate_limit_retries_exhausted` scenario), the exception raised to the
caller of `generate_embeddings` is the generic `EmbeddingGenerationError`,
never the rate-limit-exhaustion type. -/
theorem rate_limit_exhaustion_type_counterexample :
    (∃ m, (generate_embeddings (alwaysRateLimited Nat) 100 3 [("chunk 1").data]).1
        = .error (.embeddingGeneration m)) ∧
      ∀ m, (generate_embeddings (alwaysRateLimited Nat) 100 3 [("chunk 1").data]).1
        ≠ .error (.openAIRateLimit m) := by
  obtain ⟨m0, hm0⟩ : ∃ m0, (generate_embeddings (alwaysRateLimited Nat) 100 3
      [("chunk 1").data]).1 = .error (.embeddingGeneration m0) := ⟨_, rfl⟩
  refine ⟨⟨m0, hm0⟩, ?_⟩
  intro m h
  rw [hm0] at h
  simp at h

/-- C1 (amended): when the embedding stage fails (in particular when a batch
fails after the earlier batches succeeded), NOTHING is persisted: the commit
happens only after every batch returned, so the stage is all-or-nothing and
the in-memory vectors of batches `1..N-1` are discarded with the raised
exception. -/
theorem embedding_stage_failure_persists_nothing {V : Type}
    (provider : Nat → List PyStr → Except PyExc (List V)) (batchSize maxRetries : Nat)
    (committed : List (ChunkRow V)) (e : EmbErr)
    (herr : stage_embedding_generation provider batchSize maxRetries committed = .error e) :
    persistedAfterEmbeddingStage provider batchSize maxRetries committed = committed ∧
      ((∀ c ∈ committed, c.embedding = none) →
        countEmbedded (persistedAfterEmbeddingStage provider batchSize maxRetries committed)
          = 0) := by
  have hp : persistedAfterEmbeddingStage provider batchSize maxRetries committed = committed := by
    rw [persistedAfterEmbeddingStage, herr]
  refine ⟨hp, ?_⟩
  intro hall
  rw [hp, countEmbedded]
  have hf : committed.filter (fun c => c.embedding.isSome) = [] := by
    rw [List.filter_eq_nil_iff]
    intro c hc
    rw [hall c hc]
    simp
  rw [hf]
  rfl

/-- The C1 scenario provider: batch size 2 and 5 texts give 3 batch calls;
the 3rd provider call is forced to fail (non-retryable error). -/
def failsThirdCall : Nat → List PyStr → Except PyExc (List Nat) :=
  fun i ts => if i < 2 then .ok (ts.map (fun _ => 0))
    else .error (.otherExc ("forced failure").data)

/-- Five chunk rows awaiting embeddings. -/
def fiveChunkRows : List (ChunkRow Nat) :=
  [⟨1, ("t1").data, none⟩, ⟨2, ("t2").data, none⟩, ⟨3, ("t3").data, none⟩,
    ⟨4, ("t4").data, none⟩, ⟨5, ("t5").data, none⟩]

/-- Witness for C1 (amended): the forced-failure run persists nothing. -/
theorem embedding_stage_failure_persists_nothing_witness :
    persistedAfterEmbeddingStage failsThirdCall 2 3 fiveChunkRows = fiveChunkRows ∧
      countEmbedded (persistedAfterEmbeddingStage failsThirdCall 2 3 fiveChunkRows) = 0 := by
  have h := embedding_stage_failure_persists_nothing failsThirdCall 2 3 fiveChunkRows _ rfl
  exact ⟨h.1, h.2 (by decide)⟩

/-- C1 counterexample: with `batchSize = 2` and 5 texts, the forced failure
on the 3rd provider call (batches 1 and 2 having succeeded) leaves 0 embedded
vectors persisted, not 4 — `generate_embeddings` only held the first four
vectors in memory and the stage never reached its commit. -/
theorem embedding_batch_persistence_counterexample :
    (generate_embeddings failsThirdCall 2 3 (fiveChunkRows.map (fun c => c.chunk_text))).2
        = 3 ∧
      countEmbedded (persistedAfterEmbeddingStage failsThirdCall 2 3 fiveChunkRows) = 0 ∧
      countEmbedded (persistedAfterEmbeddingStage failsThirdCall 2 3 fiveChunkRows) ≠ 4 := by
  refine ⟨rfl, rfl, by decide⟩

/-! ## Theorems: embedding config lifecycle -/

/-- Filtering by a stronger predicate keeps at most as many elements. -/
theorem length_filter_le_of_imp {α : Type} (p q : α → Bool)
    (himp : ∀ a, p a = true → q a = true) :
    ∀ (l : List α), (l.filter p).length ≤ (l.filter q).length := by
  intro l
  induction l with
  | nil => simp
  | cons a l ih =>
    rw [List.filter_cons, List.filter_cons]
    by_cases hp : p a = true
    · rw [if_pos hp, if_pos (himp a hp)]
      simpa using ih
    · rw [if_neg hp]
      by_cases hq : q a = true
      · rw [if_pos hq]
        simp only [List.length_cons]
        omega
      · rw [if_neg hq]
        exact ih

/-- Archiving turns every row inactive. -/
theorem filter_active_archived_nil (rows : List EmbeddingConfigRow) :
    ((rows.map (fun c => if c.is_active then { c with is_active := false } else c)).filter
      (fun c => c.is_active)).length = 0 := by
  induction rows with
  | nil => simp
  | cons a rows ih =>
    rw [List.map_cons, List.filter_cons]
    by_cases ha : a.is_active = true
    · rw [if_pos ha]
      simpa using ih
    · rw [if_neg ha]
      have ha2 : a.is_active = false := by simpa using ha
      simpa [ha2] using ih

/-- C6: starting from at most one active config, `get_or_create_embedding_config`
succeeds, afterwards at most one config is active system-wide (exactly one in
the create path), the returned config is active and carries the configured
model name, and no pre-existing config row is deleted (every old id
survives). -/
theorem get_or_create_config_invariant (model : PyStr) (dims : Nat)
    (rows : List EmbeddingConfigRow) (nextId : Nat)
    (hact : (rows.filter (fun c => c.is_active)).length ≤ 1) :
    ∃ cfg rows2, get_or_create_embedding_config model dims rows nextId = .ok (cfg, rows2) ∧
      (rows2.filter (fun c => c.is_active)).length ≤ 1 ∧
      cfg.is_active = true ∧ cfg.model_name = model ∧
      ∀ r ∈ rows, ∃ r2 ∈ rows2, r2.id = r.id := by
  have hm : (rows.filter (fun c => c.is_active && c.model_name = model)).length ≤ 1 := by
    calc (rows.filter (fun c => c.is_active && c.model_name = model)).length
        ≤ (rows.filter (fun c => c.is_active)).length := by
          apply length_filter_le_of_imp
          intro a ha
          rw [Bool.and_eq_true] at ha
          exact ha.1
      _ ≤ 1 := hact
  rw [get_or_create_embedding_config]
  rcases hflt : rows.filter (fun c => c.is_active && c.model_name = model) with _ | ⟨c, rest⟩
  · rw [hflt]
    refine ⟨_, _, rfl, ?_, rfl, rfl, ?_⟩
    · rw [List.filter_append, List.length_append, filter_active_archived_nil rows]
      simp
    · intro r hr
      refine ⟨if r.is_active then { r with is_active := false } else r,
        List.mem_append_left _ (List.mem_map_of_mem _ hr), ?_⟩
      by_cases h : r.is_active = true
      · rw [if_pos h]
      · rw [if_neg h]
  · rcases rest with _ | ⟨c2, rest2⟩
    · rw [hflt]
      have hcmem : c ∈ rows.filter (fun c => c.is_active && c.model_name = model) := by
        rw [hflt]
        exact List.mem_cons_self c []
      obtain ⟨-, hcprop⟩ := List.mem_filter.mp hcmem
      rw [Bool.and_eq_true, decide_eq_true_eq] at hcprop
      exact ⟨c, rows, rfl, hact, hcprop.1, hcprop.2, fun r hr => ⟨r, hr, rfl⟩⟩
    · rw [hflt] at hm
      simp at hm

/-- Witness for C6: an empty config table. -/
theorem get_or_create_config_invariant_witness :
    ((([] : List EmbeddingConfigRow).filter (fun c => c.is_active)).length ≤ 1) ∧
      ∃ cfg rows2, get_or_create_embedding_config ("text-embedding-3-small").data 1536 [] 0
          = .ok (cfg, rows2) ∧
        (rows2.filter (fun c => c.is_active)).length ≤ 1 ∧
        cfg.is_active = true ∧ cfg.model_name = ("text-embedding-3-small").data ∧
        ∀ r ∈ ([] : List EmbeddingConfigRow), ∃ r2 ∈ rows2, r2.id = r.id :=
  ⟨by decide,
    get_or_create_config_invariant ("text-embedding-3-small").data 1536 [] 0 (by decide)⟩

/-! ## Theorems: VectorRetriever context windows -/

/-- Membership in a descending-by-sequence insertion. -/
theorem mem_insertBySeqDesc (x y : StoredChunk) :
    ∀ (l : List StoredChunk), y ∈ insertBySeqDesc x l ↔ y = x ∨ y ∈ l := by
  intro l
  induction l with
  | nil => simp [insertBySeqDesc]
  | cons a l ih =>
    rw [insertBySeqDesc]
    by_cases h : x.chunk_sequence ≤ a.chunk_sequence
    · rw [if_pos h]
      simp only [List.mem_cons, ih]
      tauto
    · rw [if_neg h]
      simp only [List.mem_cons]

/-- Membership in an ascending-by-sequence insertion. -/
theorem mem_insertBySeqAsc (x y : StoredChunk) :
    ∀ (l : List StoredChunk), y ∈ insertBySeqAsc x l ↔ y = x ∨ y ∈ l := by
  intro l
  induction l with
  | nil => simp [insertBySeqAsc]
  | cons a l ih =>
    rw [insertBySeqAsc]
    by_cases h : a.chunk_sequence ≤ x.chunk_sequence
    · rw [if_pos h]
      simp only [List.mem_cons, ih]
      tauto
    · rw [if_neg h]
      simp only [List.mem_cons]

/-- Sorting by descending sequence keeps exactly the input elements. -/
theorem mem_sortBySeqDesc (y : StoredChunk) (l : List StoredChunk) :
    y ∈ sortBySeqDesc l ↔ y ∈ l := by
  rw [sortBySeqDesc]
  suffices h : ∀ (l acc : List StoredChunk),
      (y ∈ l.foldl (fun acc x => insertBySeqDesc x acc) acc ↔ y ∈ acc ∨ y ∈ l) by
    rw [h l []]
    simp
  intro l
  induction l with
  | nil => intro acc; simp
  | cons a l ih =>
    intro acc
    rw [List.foldl_cons, ih, mem_insertBySeqDesc]
    simp only [List.mem_cons]
    tauto

/-- Sorting by ascending sequence keeps exactly the input elements. -/
theorem mem_sortBySeqAsc (y : StoredChunk) (l : List StoredChunk) :
    y ∈ sortBySeqAsc l ↔ y ∈ l := by
  rw [sortBySeqAsc]
  suffices h : ∀ (l acc : List StoredChunk),
      (y ∈ l.foldl (fun acc x => insertBySeqAsc x acc) acc ↔ y ∈ acc ∨ y ∈ l) by
    rw [h l []]
    simp
  intro l
  induction l with
  | nil => intro acc; simp
  | cons a l ih =>
    intro acc
    rw [List.foldl_cons, ih, mem_insertBySeqAsc]
    simp only [List.mem_cons]
    tauto

/-- Every chunk in the previous-context window has similarity 0, lives in
the requested book and strictly precedes the requested sequence number. -/
theorem contextPrevious_spec (store : List StoredChunk) (bookId seq contextSize : Nat) :
    (contextPrevious store bookId seq contextSize).length ≤ contextSize ∧
      ∀ x ∈ contextPrevious store bookId seq contextSize,
        x.similarity_score = 0 ∧ x.book_id = bookId ∧ x.chunk_sequence < seq := by
  constructor
  · rw [contextPrevious, List.length_map]
    exact List.length_take_le _ _
  · intro x hx
    rw [contextPrevious] at hx
    obtain ⟨row, hrow, rfl⟩ := List.mem_map.mp hx
    have hmem : row ∈ store.filter
        (fun r => r.book_id = bookId && decide (r.chunk_sequence < seq)) :=
      (mem_sortBySeqDesc row _).mp (List.mem_of_mem_take hrow)
    obtain ⟨-, hprop⟩ := List.mem_filter.mp hmem
    rw [Bool.and_eq_true, decide_eq_true_eq, decide_eq_true_eq] at hprop
    exact ⟨rfl, hprop.1, hprop.2⟩

/-- Every chunk in the next-context window has similarity 0, lives in the
requested book and strictly follows the requested sequence number. -/
theorem contextNext_spec (store : List StoredChunk) (bookId seq contextSize : Nat) :
    (contextNext store bookId seq contextSize).length ≤ contextSize ∧
      ∀ x ∈ contextNext store bookId seq contextSize,
        x.similarity_score = 0 ∧ x.book_id = bookId ∧ seq < x.chunk_sequence := by
  constructor
  · rw [contextNext, List.length_map]
    exact List.length_take_le _ _
  · intro x hx
    rw [contextNext] at hx
    obtain ⟨row, hrow, rfl⟩ := List.mem_map.mp hx
    have hmem : row ∈ store.filter
        (fun r => r.book_id = bookId && decide (seq < r.chunk_sequence)) :=
      (mem_sortBySeqAsc row _).mp (List.mem_of_mem_take hrow)
    obtain ⟨-, hprop⟩ := List.mem_filter.mp hmem
    rw [Bool.and_eq_true, decide_eq_true_eq, decide_eq_true_eq] at hprop
    exact ⟨rfl, hprop.1, hprop.2⟩

/-- C7 (amended): neighbouring context chunks are fetched and attached
exactly when `include_context=True` was passed (not whenever
`context_size > 0`); then each result carries up to `context_size` previous
and next neighbours by sequence number within the same book, each assigned
similarity 0 and kept outside the ranked result list. -/
theorem search_context_attached_when_included (store : List StoredChunk)
    (embedText : PyStr → List ℝ) (modelName queryText : PyStr) (topK : Nat)
    (similarityThreshold : ℝ) (bookIds : Option (List Nat))
    (dateRange : Option (Int × Int)) (contextSize : Nat)
    (hq : stripStr queryText ≠ [])
    (ht : 0 ≤ similarityThreshold ∧ similarityThreshold ≤ 1)
    (hk : 1 ≤ topK) :
    ∃ res md, vectorSearch store embedText modelName queryText topK similarityThreshold
        bookIds dateRange true contextSize = .ok (res, md) ∧
      res.length ≤ topK ∧
      ∀ r ∈ res, ∃ pcs ncs,
        r.previous_chunks = some pcs ∧ r.next_chunks = some ncs ∧
        pcs.length ≤ contextSize ∧ ncs.length ≤ contextSize ∧
        (∀ x ∈ pcs, x.similarity_score = 0 ∧ x.book_id = r.book_id ∧
          x.chunk_sequence < r.chunk_sequence) ∧
        (∀ x ∈ ncs, x.similarity_score = 0 ∧ x.book_id = r.book_id ∧
          r.chunk_sequence < x.chunk_sequence) := by
  rw [vectorSearch, if_neg hq, if_neg (not_not_intro ht), if_neg (by omega)]
  simp only []
  refine ⟨_, _, rfl, ?_, ?_⟩
  · rw [List.length_map]
    exact le_trans (List.length_take_le _ _) (le_refl _)
  · intro r hr
    obtain ⟨row, hrow, rfl⟩ := List.mem_map.mp hr
    refine ⟨contextPrevious store row.book_id row.chunk_sequence contextSize,
      contextNext store row.book_id row.chunk_sequence contextSize, rfl, rfl, ?_, ?_, ?_, ?_⟩
    · exact (contextPrevious_spec store row.book_id row.chunk_sequence contextSize).1
    · exact (contextNext_spec store row.book_id row.chunk_sequence contextSize).1
    · exact (contextPrevious_spec store row.book_id row.chunk_sequence contextSize).2
    · exact (contextNext_spec store row.book_id row.chunk_sequence contextSize).2

/-- Witness for C7 (amended): valid arguments with `include_context=True`. -/
theorem search_context_attached_when_included_witness :
    stripStr ("q").data ≠ [] ∧ ((0 : ℝ) ≤ 1/2 ∧ (1 : ℝ)/2 ≤ 1) ∧ (1 : Nat) ≤ 1 ∧
      (∃ res md, vectorSearch [] (fun _ => []) ("m").data ("q").data 1 (1/2)
          none none true 1 = .ok (res, md) ∧
        res.length ≤ 1 ∧
        ∀ r ∈ res, ∃ pcs ncs,
          r.previous_chunks = some pcs ∧ r.next_chunks = some ncs ∧
          pcs.length ≤ 1 ∧ ncs.length ≤ 1 ∧
          (∀ x ∈ pcs, x.similarity_score = 0 ∧ x.book_id = r.book_id ∧
            x.chunk_sequence < r.chunk_sequence) ∧
          (∀ x ∈ ncs, x.similarity_score = 0 ∧ x.book_id = r.book_id ∧
            r.chunk_sequence < x.chunk_sequence)) :=
  ⟨by decide, ⟨by norm_num, by norm_num⟩, le_refl 1,
    search_context_attached_when_included [] (fun _ => []) ("m").data ("q").data 1 (1/2)
      none none 1 (by decide) ⟨by norm_num, by norm_num⟩ (le_refl 1)⟩

/-- Dot product of singleton vectors. -/
theorem dotR_single (a b : ℝ) : dotR [a] [b] = a * b := by
  simp [dotR]

/-- Dot product of two-component vectors. -/
theorem dotR_pair (a b c d : ℝ) : dotR [a, b] [c, d] = a * c + b * d := by
  simp [dotR]

/-- Similarity of a stored one-dimensional vector against a one-dimensional
query. -/
theorem similarityOf_single (r : StoredChunk) (a q : ℝ) (h : r.embedding = [a]) :
    similarityOf r [q] = a * q / (Real.sqrt (a * a) * Real.sqrt (q * q)) := by
  rw [similarityOf, cosineDistance, h, normR, normR, dotR_single, dotR_single, dotR_single]
  ring

/-- The C7 store: two chunks of the same book, sequences 1 and 2. -/
noncomputable def ctxRow1 : StoredChunk :=
  ⟨1, ("alpha").data, 1, ("Book").data, none, [], 1, [1], 0⟩

/-- The C7 neighbour chunk, orthogonal to the query. -/
noncomputable def ctxRow2 : StoredChunk :=
  ⟨2, ("beta").data, 1, ("Book").data, none, [], 2, [-1], 0⟩

/-- C7 counterexample: a call with `context_size = 1 > 0` but the default
`include_context=False` returns the matching chunk with NO context attached
(`previous_chunks = next_chunks = None`), although a same-book neighbour with
the next sequence number exists in storage — context attachment is governed
by the `include_context` flag, not by `context_size > 0`. -/
theorem search_context_size_counterexample :
    ∃ res md,
      vectorSearch [ctxRow1, ctxRow2] (fun _ => [1]) ("m").data ("q").data 1 (1/2)
          none none false 1 = .ok (res, md) ∧
      res.map (fun r => r.chunk_id) = [1] ∧
      res.map (fun r => r.previous_chunks) = [none] ∧
      res.map (fun r => r.next_chunks) = [none] ∧
      ctxRow2.book_id = ctxRow1.book_id ∧
      ctxRow1.chunk_sequence < ctxRow2.chunk_sequence ∧ (0 : Nat) < 1 := by
  have h1 : similarityOf ctxRow1 [1] = 1 := by
    rw [similarityOf_single ctxRow1 1 1 rfl]
    rw [show ((1 : ℝ) * 1) = 1 by ring, Real.sqrt_one]
    norm_num
  have h2 : similarityOf ctxRow2 [1] = -1 := by
    rw [similarityOf_single ctxRow2 (-1) 1 rfl]
    rw [show ((-1 : ℝ) * -1) = 1 by ring, show ((1 : ℝ) * 1) = 1 by ring, Real.sqrt_one]
    norm_num
  have hfil : filterGE (fun r => similarityOf r [1]) (1/2) [ctxRow1, ctxRow2] = [ctxRow1] := by
    simp only [filterGE, h1, h2]
    rw [if_pos (by norm_num : (1 : ℝ)/2 ≤ 1), if_neg (by norm_num : ¬((1 : ℝ)/2 ≤ -1))]
  have hsort : sortBySimDesc (fun r => similarityOf r [1]) [ctxRow1] = [ctxRow1] := by
    simp [sortBySimDesc, insertBySimDesc]
  rw [vectorSearch, if_neg (by decide),
    if_neg (not_not_intro ⟨by norm_num, by norm_num⟩), if_neg (by omega)]
  simp only []
  rw [applyBookFilter, applyDateFilter]
  rw [hfil, hsort]
  refine ⟨_, _, rfl, rfl, rfl, rfl, rfl, by decide, by decide⟩

/-! ## Theorems: VectorRetriever ranking scenario -/

/-- Similarity of a stored two-dimensional vector against a two-dimensional
query. -/
theorem similarityOf_pair (r : StoredChunk) (a b qa qb : ℝ) (h : r.embedding = [a, b]) :
    similarityOf r [qa, qb] =
      (a * qa + b * qb) / (Real.sqrt (a * a + b * b) * Real.sqrt (qa * qa + qb * qb)) := by
  rw [similarityOf, cosineDistance, h, normR, normR, dotR_pair, dotR_pair, dotR_pair]
  ring

/-- The C9 store, chunk 1: vector `[1, 0]`. -/
noncomputable def simRow1 : StoredChunk :=
  ⟨1, ("one").data, 1, ("B").data, none, [], 1, [1, 0], 0⟩

/-- The C9 store, chunk 2: vector `[0, 1]`. -/
noncomputable def simRow2 : StoredChunk :=
  ⟨2, ("two").data, 1, ("B").data, none, [], 2, [0, 1], 0⟩

/-- The C9 store, chunk 3: vector `[0.9, 0.1]`. -/
noncomputable def simRow3 : StoredChunk :=
  ⟨3, ("three").data, 1, ("B").data, none, [], 3, [9/10, 1/10], 0⟩

/-- C9: with stored vectors `[1,0], [0,1], [0.9,0.1]` and query vector
`[1,0]`, `search(topK=2, threshold=0.5)` returns chunk 1 first, then
chunk 3, and never returns chunk 2 (similarity `1 - cosineDistance`,
filtered at the threshold, sorted descending, first `topK` taken). -/
theorem retrieval_scenario_topk_threshold :
    ∃ res md,
      vectorSearch [simRow1, simRow2, simRow3] (fun _ => [1, 0]) ("m").data
          ("wisdom").data 2 (1/2) none none false 1 = .ok (res, md) ∧
      res.map (fun r => r.chunk_id) = [1, 3] ∧
      ∀ r ∈ res, r.chunk_id ≠ 2 := by
  have h1 : similarityOf simRow1 [1, 0] = 1 := by
    rw [similarityOf_pair simRow1 1 0 1 0 rfl]
    rw [show ((1 : ℝ) * 1 + 0 * 0) = 1 by norm_num, Real.sqrt_one]
    norm_num
  have h2 : similarityOf simRow2 [1, 0] = 0 := by
    rw [similarityOf_pair simRow2 0 1 1 0 rfl]
    norm_num
  have h3 : similarityOf simRow3 [1, 0] = (9 : ℝ)/10 / Real.sqrt (82/100) := by
    rw [similarityOf_pair simRow3 (9/10) (1/10) 1 0 rfl]
    rw [show ((9 : ℝ)/10 * (9/10) + 1/10 * (1/10)) = 82/100 by norm_num,
      show ((1 : ℝ) * 1 + 0 * 0) = 1 by norm_num, Real.sqrt_one]
    norm_num
  have hgt : (9 : ℝ)/10 < Real.sqrt (82/100) :=
    (Real.lt_sqrt (by norm_num : (0 : ℝ) ≤ 9/10)).mpr (by norm_num)
  have hle1 : Real.sqrt (82/100) ≤ 1 := by
    rw [show (1 : ℝ) = Real.sqrt 1 from Real.sqrt_one.symm]
    exact Real.sqrt_le_sqrt (by norm_num)
  have hpos : (0 : ℝ) < Real.sqrt (82/100) := lt_trans (by norm_num) hgt
  have hs3low : (1 : ℝ)/2 ≤ (9 : ℝ)/10 / Real.sqrt (82/100) := by
    rw [le_div_iff₀ hpos]
    nlinarith [hle1]
  have hs3hi : (9 : ℝ)/10 / Real.sqrt (82/100) ≤ 1 := by
    rw [div_le_one hpos]
    exact le_of_lt hgt
  have hfil : filterGE (fun r => similarityOf r [1, 0]) (1/2) [simRow1, simRow2, simRow3]
      = [simRow1, simRow3] := by
    simp only [filterGE, h1, h2, h3]
    rw [if_pos (by norm_num : (1 : ℝ)/2 ≤ 1), if_neg (by norm_num : ¬((1 : ℝ)/2 ≤ 0)),
      if_pos hs3low]
  have hsort : sortBySimDesc (fun r => similarityOf r [1, 0]) [simRow1, simRow3]
      = [simRow1, simRow3] := by
    rw [sortBySimDesc, List.foldl_cons, List.foldl_cons, List.foldl_nil]
    simp only [insertBySimDesc, h1, h3]
    rw [if_pos hs3hi]
  rw [vectorSearch, if_neg (by decide),
    if_neg (not_not_intro ⟨by norm_num, by norm_num⟩), if_neg (by omega)]
  simp only []
  rw [applyBookFilter, applyDateFilter]
  rw [hfil, hsort]
  refine ⟨_, _, rfl, rfl, ?_⟩
  intro r hr
  rw [show List.take 2 [simRow1, simRow3] = [simRow1, simRow3] from rfl] at hr
  rcases List.mem_map.mp hr with ⟨row, hrow, rfl⟩
  simp only [List.mem_cons, List.mem_singleton, List.not_mem_nil, or_false] at hrow
  rcases hrow with rfl | rfl
  · decide
  · decide
